import Mathlib

/-!
Verification of the Sparse PCA simulation script.

The script generates a sparse ground-truth signal, a covariance matrix
`S = alpha * outer(signal, signal) + beta * I`, noisy data `X = Z @ S`, and then
runs several fixed-step gradient-descent variants (four autodiff objectives and
one manual projected-gradient-ascent "Hadamard parametrization" variant),
tracking a sine-error recovery metric each iteration.

The embedding below models the exact (real/rational) arithmetic of the script:
the sparse-vector generator and entry counts live in `ℚ` (decidable, exact),
the norms, metrics and optimization steps live in `ℝ`.
-/

namespace SparsePCA

/-- The ground-truth sparse signal generator: entry `i` is `1` if `i < p * sparsity`
and `0` otherwise (the loop `for i in range(p): if i < p * sparsity: ... = 1 else ... = 0`). -/
def sparse_vector (p : ℕ) (sparsity : ℚ) : Fin p → ℚ :=
  fun i => if (i : ℚ) < (p : ℚ) * sparsity then 1 else 0

/-- The sparse signal coerced to real entries (for use in the real-valued metrics). -/
def signalR (p : ℕ) (sparsity : ℚ) : Fin p → ℝ :=
  fun i => ((sparse_vector p sparsity i : ℚ) : ℝ)

/-- The covariance matrix `S = alpha * sparse_vector @ sparse_vector.T + beta * np.identity(p)`. -/
def covS {p : ℕ} (alpha beta : ℝ) (sig : Fin p → ℝ) : Fin p → Fin p → ℝ :=
  fun i j => alpha * (sig i * sig j) + beta * (if i = j then (1 : ℝ) else 0)

/-- Euclidean norm `torch.norm x = sqrt (sum of squares)`. -/
noncomputable def l2norm {m : ℕ} (x : Fin m → ℝ) : ℝ :=
  Real.sqrt (∑ i, x i ^ 2)

/-- The script's cosine similarity
`torch.sum(recovered * sparse_vector) / (torch.norm(recovered) * torch.norm(sparse_vector))`;
the division is unguarded, re divisor zero see the safety theorems below. -/
noncomputable def cosine_error {m : ℕ} (r s : Fin m → ℝ) : ℝ :=
  (∑ i, r i * s i) / (l2norm r * l2norm s)

/-- The script's `sine_error = (1 - cosine_error ** 2) ** 0.5`. -/
noncomputable def sine_error {m : ℕ} (r s : Fin m → ℝ) : ℝ :=
  Real.sqrt (1 - cosine_error r s ^ 2)

/-- Elementwise (Hadamard) product `u * v` of two column vectors. -/
def hadamard {p : ℕ} (u v : Fin p → ℝ) : Fin p → ℝ :=
  fun i => u i * v i

/-- The renormalization used by the Hadamard-parametrization variant:
`norm = torch.norm(u * v); u = u / norm ** 0.5; v = v / norm ** 0.5`. -/
noncomputable def renormalize {p : ℕ} (u v : Fin p → ℝ) :
    (Fin p → ℝ) × (Fin p → ℝ) :=
  (fun i => u i / Real.sqrt (l2norm (hadamard u v)),
   fun i => v i / Real.sqrt (l2norm (hadamard u v)))

/-- The gradient-ascent update of `u` in the Hadamard-parametrization loop:
`u += (v * ((S + S.T) @ (u * v))) * step_size`. -/
def ascentU {p : ℕ} (S : Fin p → Fin p → ℝ) (σ : ℝ) (u v : Fin p → ℝ) : Fin p → ℝ :=
  fun i => u i + (v i * (∑ j, (S i j + S j i) * (u j * v j))) * σ

/-- The gradient-ascent update of `v` in the Hadamard-parametrization loop:
`v += (u * ((S + S.T) @ (u * v))) * step_size`. -/
def ascentV {p : ℕ} (S : Fin p → Fin p → ℝ) (σ : ℝ) (u v : Fin p → ℝ) : Fin p → ℝ :=
  fun i => v i + (u i * (∑ j, (S i j + S j i) * (u j * v j))) * σ

/-- One full iteration of the Hadamard-parametrization loop: gradient-ascent
updates of `u` and `v` followed by the joint renormalization. -/
noncomputable def hadamardStep {p : ℕ} (S : Fin p → Fin p → ℝ) (σ : ℝ)
    (uv : (Fin p → ℝ) × (Fin p → ℝ)) : (Fin p → ℝ) × (Fin p → ℝ) :=
  renormalize (ascentU S σ uv.1 uv.2) (ascentV S σ uv.1 uv.2)

/-- State of one autodiff training loop: the parameter vectors `u`, `v`, `w`
together with their gradient accumulators (`u.grad`, `v.grad`, `w.grad`). -/
structure GDState (n p : ℕ) where
  u : Fin n → ℝ
  v : Fin p → ℝ
  w : Fin p → ℝ
  gu : Fin n → ℝ
  gv : Fin p → ℝ
  gw : Fin p → ℝ

/-- Method 1 loss `torch.sum(A * A)` with `A = X - u @ (v * w).T`. -/
def objective_function_1 {n p : ℕ} (X : Fin n → Fin p → ℝ)
    (u : Fin n → ℝ) (v w : Fin p → ℝ) : ℝ :=
  ∑ i, ∑ j, (X i j - u i * (v j * w j)) ^ 2

/-- Method 2 loss `torch.sum(A * A)` with `A = X - (X @ u) @ (v * w).T`. -/
def objective_function_2 {n p : ℕ} (X : Fin n → Fin p → ℝ)
    (u v w : Fin p → ℝ) : ℝ :=
  ∑ i, ∑ j, (X i j - (∑ m, X i m * u m) * (v j * w j)) ^ 2

/-- Method 3 loss `torch.sum(A * A)` with `A = X - u @ (v * v - w * w).T`. -/
def objective_function_3 {n p : ℕ} (X : Fin n → Fin p → ℝ)
    (u : Fin n → ℝ) (v w : Fin p → ℝ) : ℝ :=
  ∑ i, ∑ j, (X i j - u i * (v j * v j - w j * w j)) ^ 2

/-- Method 4 loss `torch.sum(A * A)` with `A = X - (X @ u) @ (v * v - w * w).T`. -/
def objective_function_4 {n p : ℕ} (X : Fin n → Fin p → ℝ)
    (u v w : Fin p → ℝ) : ℝ :=
  ∑ i, ∑ j, (X i j - (∑ m, X i m * u m) * (v j * v j - w j * w j)) ^ 2

/-- Gradient of the method 1 loss with respect to `u` (what `backward()` computes). -/
def grad1_u {n p : ℕ} (X : Fin n → Fin p → ℝ) (u : Fin n → ℝ) (v w : Fin p → ℝ)
    (k : Fin n) : ℝ :=
  ∑ j, 2 * (X k j - u k * (v j * w j)) * (-(v j * w j))

/-- Gradient of the method 1 loss with respect to `v`. -/
def grad1_v {n p : ℕ} (X : Fin n → Fin p → ℝ) (u : Fin n → ℝ) (v w : Fin p → ℝ)
    (k : Fin p) : ℝ :=
  ∑ i, 2 * (X i k - u i * (v k * w k)) * (-(u i * w k))

/-- Gradient of the method 1 loss with respect to `w`. -/
def grad1_w {n p : ℕ} (X : Fin n → Fin p → ℝ) (u : Fin n → ℝ) (v w : Fin p → ℝ)
    (k : Fin p) : ℝ :=
  ∑ i, 2 * (X i k - u i * (v k * w k)) * (-(u i * v k))

/-- Gradient of the method 2 loss with respect to `u`. -/
def grad2_u {n p : ℕ} (X : Fin n → Fin p → ℝ) (u v w : Fin p → ℝ)
    (k : Fin p) : ℝ :=
  ∑ i, ∑ j, 2 * (X i j - (∑ m, X i m * u m) * (v j * w j)) * (-(X i k * (v j * w j)))

/-- Gradient of the method 2 loss with respect to `v`. -/
def grad2_v {n p : ℕ} (X : Fin n → Fin p → ℝ) (u v w : Fin p → ℝ)
    (k : Fin p) : ℝ :=
  ∑ i : Fin n, 2 * (X i k - (∑ m, X i m * u m) * (v k * w k)) * (-((∑ m, X i m * u m) * w k))

/-- Gradient of the method 2 loss with respect to `w`. -/
def grad2_w {n p : ℕ} (X : Fin n → Fin p → ℝ) (u v w : Fin p → ℝ)
    (k : Fin p) : ℝ :=
  ∑ i : Fin n, 2 * (X i k - (∑ m, X i m * u m) * (v k * w k)) * (-((∑ m, X i m * u m) * v k))

/-- Gradient of the method 3 loss with respect to `u`. -/
def grad3_u {n p : ℕ} (X : Fin n → Fin p → ℝ) (u : Fin n → ℝ) (v w : Fin p → ℝ)
    (k : Fin n) : ℝ :=
  ∑ j, 2 * (X k j - u k * (v j * v j - w j * w j)) * (-(v j * v j - w j * w j))

/-- Gradient of the method 3 loss with respect to `v`. -/
def grad3_v {n p : ℕ} (X : Fin n → Fin p → ℝ) (u : Fin n → ℝ) (v w : Fin p → ℝ)
    (k : Fin p) : ℝ :=
  ∑ i, 2 * (X i k - u i * (v k * v k - w k * w k)) * (-(u i * (2 * v k)))

/-- Gradient of the method 3 loss with respect to `w`. -/
def grad3_w {n p : ℕ} (X : Fin n → Fin p → ℝ) (u : Fin n → ℝ) (v w : Fin p → ℝ)
    (k : Fin p) : ℝ :=
  ∑ i, 2 * (X i k - u i * (v k * v k - w k * w k)) * (u i * (2 * w k))

/-- Gradient of the method 4 loss with respect to `u`. -/
def grad4_u {n p : ℕ} (X : Fin n → Fin p → ℝ) (u v w : Fin p → ℝ)
    (k : Fin p) : ℝ :=
  ∑ i, ∑ j, 2 * (X i j - (∑ m, X i m * u m) * (v j * v j - w j * w j)) *
    (-(X i k * (v j * v j - w j * w j)))

/-- Gradient of the method 4 loss with respect to `v`. -/
def grad4_v {n p : ℕ} (X : Fin n → Fin p → ℝ) (u v w : Fin p → ℝ)
    (k : Fin p) : ℝ :=
  ∑ i : Fin n, 2 * (X i k - (∑ m, X i m * u m) * (v k * v k - w k * w k)) *
    (-((∑ m, X i m * u m) * (2 * v k)))

/-- Gradient of the method 4 loss with respect to `w`. -/
def grad4_w {n p : ℕ} (X : Fin n → Fin p → ℝ) (u v w : Fin p → ℝ)
    (k : Fin p) : ℝ :=
  ∑ i : Fin n, 2 * (X i k - (∑ m, X i m * u m) * (v k * v k - w k * w k)) *
    ((∑ m, X i m * u m) * (2 * w k))

/-- One iteration of the method 1 loop: `backward()` accumulates the loss gradients
into the `.grad` fields, each parameter is updated by `param -= param.grad * step_size`,
then the accumulators are cleared by `param.grad.zero_()`. -/
def gdStep1 {n p : ℕ} (X : Fin n → Fin p → ℝ) (σ : ℝ) (s : GDState n p) : GDState n p :=
  { u := fun k => s.u k - (s.gu k + grad1_u X s.u s.v s.w k) * σ
    v := fun k => s.v k - (s.gv k + grad1_v X s.u s.v s.w k) * σ
    w := fun k => s.w k - (s.gw k + grad1_w X s.u s.v s.w k) * σ
    gu := fun _ => 0
    gv := fun _ => 0
    gw := fun _ => 0 }

/-- One iteration of the method 2 loop. -/
def gdStep2 {n p : ℕ} (X : Fin n → Fin p → ℝ) (σ : ℝ) (s : GDState p p) : GDState p p :=
  { u := fun k => s.u k - (s.gu k + grad2_u X s.u s.v s.w k) * σ
    v := fun k => s.v k - (s.gv k + grad2_v X s.u s.v s.w k) * σ
    w := fun k => s.w k - (s.gw k + grad2_w X s.u s.v s.w k) * σ
    gu := fun _ => 0
    gv := fun _ => 0
    gw := fun _ => 0 }

/-- One iteration of the method 3 loop. -/
def gdStep3 {n p : ℕ} (X : Fin n → Fin p → ℝ) (σ : ℝ) (s : GDState n p) : GDState n p :=
  { u := fun k => s.u k - (s.gu k + grad3_u X s.u s.v s.w k) * σ
    v := fun k => s.v k - (s.gv k + grad3_v X s.u s.v s.w k) * σ
    w := fun k => s.w k - (s.gw k + grad3_w X s.u s.v s.w k) * σ
    gu := fun _ => 0
    gv := fun _ => 0
    gw := fun _ => 0 }

/-- One iteration of the method 4 loop. -/
def gdStep4 {n p : ℕ} (X : Fin n → Fin p → ℝ) (σ : ℝ) (s : GDState p p) : GDState p p :=
  { u := fun k => s.u k - (s.gu k + grad4_u X s.u s.v s.w k) * σ
    v := fun k => s.v k - (s.gv k + grad4_v X s.u s.v s.w k) * σ
    w := fun k => s.w k - (s.gw k + grad4_w X s.u s.v s.w k) * σ
    gu := fun _ => 0
    gv := fun _ => 0
    gw := fun _ => 0 }

/-- The gradient accumulators of a training state are all zero (the loop invariant
established by `grad.zero_()` at the end of every iteration, and by fresh
initialization before the first one). -/
def zeroGrads {n p : ℕ} (s : GDState n p) : Prop :=
  s.gu = (fun _ => 0) ∧ s.gv = (fun _ => 0) ∧ s.gw = (fun _ => 0)

/-- The method 1 iteration implements one exact fixed-step gradient-descent update:
each parameter moves by `- grad * step_size` where the `grad*` functions are the
true partial derivatives of `objective_function_1`, and the accumulators end at zero. -/
def gdStepSpec1 {n p : ℕ} (X : Fin n → Fin p → ℝ) (σ : ℝ) (s : GDState n p) : Prop :=
  (gdStep1 X σ s).u = (fun k => s.u k - grad1_u X s.u s.v s.w k * σ) ∧
  (gdStep1 X σ s).v = (fun k => s.v k - grad1_v X s.u s.v s.w k * σ) ∧
  (gdStep1 X σ s).w = (fun k => s.w k - grad1_w X s.u s.v s.w k * σ) ∧
  zeroGrads (gdStep1 X σ s) ∧
  (∀ k, HasDerivAt (fun t => objective_function_1 X (Function.update s.u k t) s.v s.w)
    (grad1_u X s.u s.v s.w k) (s.u k)) ∧
  (∀ k, HasDerivAt (fun t => objective_function_1 X s.u (Function.update s.v k t) s.w)
    (grad1_v X s.u s.v s.w k) (s.v k)) ∧
  (∀ k, HasDerivAt (fun t => objective_function_1 X s.u s.v (Function.update s.w k t))
    (grad1_w X s.u s.v s.w k) (s.w k))

/-- The method 2 iteration implements one exact fixed-step gradient-descent update. -/
def gdStepSpec2 {n p : ℕ} (X : Fin n → Fin p → ℝ) (σ : ℝ) (s : GDState p p) : Prop :=
  (gdStep2 X σ s).u = (fun k => s.u k - grad2_u X s.u s.v s.w k * σ) ∧
  (gdStep2 X σ s).v = (fun k => s.v k - grad2_v X s.u s.v s.w k * σ) ∧
  (gdStep2 X σ s).w = (fun k => s.w k - grad2_w X s.u s.v s.w k * σ) ∧
  zeroGrads (gdStep2 X σ s) ∧
  (∀ k, HasDerivAt (fun t => objective_function_2 X (Function.update s.u k t) s.v s.w)
    (grad2_u X s.u s.v s.w k) (s.u k)) ∧
  (∀ k, HasDerivAt (fun t => objective_function_2 X s.u (Function.update s.v k t) s.w)
    (grad2_v X s.u s.v s.w k) (s.v k)) ∧
  (∀ k, HasDerivAt (fun t => objective_function_2 X s.u s.v (Function.update s.w k t))
    (grad2_w X s.u s.v s.w k) (s.w k))

/-- The method 3 iteration implements one exact fixed-step gradient-descent update. -/
def gdStepSpec3 {n p : ℕ} (X : Fin n → Fin p → ℝ) (σ : ℝ) (s : GDState n p) : Prop :=
  (gdStep3 X σ s).u = (fun k => s.u k - grad3_u X s.u s.v s.w k * σ) ∧
  (gdStep3 X σ s).v = (fun k => s.v k - grad3_v X s.u s.v s.w k * σ) ∧
  (gdStep3 X σ s).w = (fun k => s.w k - grad3_w X s.u s.v s.w k * σ) ∧
  zeroGrads (gdStep3 X σ s) ∧
  (∀ k, HasDerivAt (fun t => objective_function_3 X (Function.update s.u k t) s.v s.w)
    (grad3_u X s.u s.v s.w k) (s.u k)) ∧
  (∀ k, HasDerivAt (fun t => objective_function_3 X s.u (Function.update s.v k t) s.w)
    (grad3_v X s.u s.v s.w k) (s.v k)) ∧
  (∀ k, HasDerivAt (fun t => objective_function_3 X s.u s.v (Function.update s.w k t))
    (grad3_w X s.u s.v s.w k) (s.w k))

/-- The method 4 iteration implements one exact fixed-step gradient-descent update. -/
def gdStepSpec4 {n p : ℕ} (X : Fin n → Fin p → ℝ) (σ : ℝ) (s : GDState p p) : Prop :=
  (gdStep4 X σ s).u = (fun k => s.u k - grad4_u X s.u s.v s.w k * σ) ∧
  (gdStep4 X σ s).v = (fun k => s.v k - grad4_v X s.u s.v s.w k * σ) ∧
  (gdStep4 X σ s).w = (fun k => s.w k - grad4_w X s.u s.v s.w k * σ) ∧
  zeroGrads (gdStep4 X σ s) ∧
  (∀ k, HasDerivAt (fun t => objective_function_4 X (Function.update s.u k t) s.v s.w)
    (grad4_u X s.u s.v s.w k) (s.u k)) ∧
  (∀ k, HasDerivAt (fun t => objective_function_4 X s.u (Function.update s.v k t) s.w)
    (grad4_v X s.u s.v s.w k) (s.v k)) ∧
  (∀ k, HasDerivAt (fun t => objective_function_4 X s.u s.v (Function.update s.w k t))
    (grad4_w X s.u s.v s.w k) (s.w k))

/-- The `for i in range(epochs)` training loop: apply the per-iteration step
exactly `epochs` times; nothing about the state can cut the loop short. -/
def runEpochs {T : Type} (stepFn : T → T) : ℕ → T → T
  | 0, s => s
  | k + 1, s => runEpochs stepFn k (stepFn s)

/-- The training loop instrumented with an iteration counter: returns the final
state together with the number of iterations actually executed. -/
def runCount {T : Type} (stepFn : T → T) : ℕ → T → T × ℕ
  | 0, s => (s, 0)
  | k + 1, s => ((runCount stepFn k (stepFn s)).1, (runCount stepFn k (stepFn s)).2 + 1)

/-- The per-iteration metric trace (`sine_errors` / `l1` lists): one value appended
before the loop and one after every iteration, append-only. -/
def metricTrace {T : Type} (stepFn : T → T) (μ : T → ℝ) : ℕ → T → List ℝ
  | 0, s => [μ s]
  | k + 1, s => μ s :: metricTrace stepFn μ k (stepFn s)

/-- Concrete 1-by-1 data matrix used by the witnesses. -/
def demoX : Fin 1 → Fin 1 → ℝ := fun _ _ => 0

/-- Concrete 1-by-1 training state with cleared gradient accumulators. -/
def demoState : GDState 1 1 where
  u := fun _ => 1
  v := fun _ => 1
  w := fun _ => 1
  gu := fun _ => 0
  gv := fun _ => 0
  gw := fun _ => 0

lemma sparse_vector_eq_one_iff (p : ℕ) (sp : ℚ) (i : Fin p) :
    sparse_vector p sp i = 1 ↔ (i : ℚ) < (p : ℚ) * sp := by
  unfold sparse_vector
  by_cases h : (i : ℚ) < (p : ℚ) * sp
  · simp [h]
  · simp [h]

lemma card_filter_val_lt (p m : ℕ) (hm : m ≤ p) :
    (Finset.univ.filter (fun i : Fin p => (i : ℕ) < m)).card = m := by
  rw [← Finset.card_range m]
  apply Finset.card_bij (fun (i : Fin p) _ => (i : ℕ))
  · intro a ha
    simp only [Finset.mem_filter, Finset.mem_univ, true_and] at ha
    simpa [Finset.mem_range] using ha
  · intro a ha b hb h
    exact Fin.ext h
  · intro b hb
    refine ⟨⟨b, lt_of_lt_of_le (Finset.mem_range.mp hb) hm⟩, ?_, rfl⟩
    simp [Finset.mem_filter, Finset.mem_range.mp hb]

lemma sparse_vector_card (p : ℕ) (sp : ℚ) (h : (p : ℚ) * sp ≤ (p : ℚ)) :
    (Finset.univ.filter (fun i : Fin p => sparse_vector p sp i = 1)).card =
      Nat.ceil ((p : ℚ) * sp) := by
  have hc : ∀ i : Fin p,
      (sparse_vector p sp i = 1) ↔ ((i : ℕ) < Nat.ceil ((p : ℚ) * sp)) := by
    intro i
    rw [sparse_vector_eq_one_iff, Nat.lt_ceil]
  rw [Finset.filter_congr (fun i _ => by rw [hc i])]
  exact card_filter_val_lt p _ (by rwa [Nat.ceil_le])

/-- C1 counterexample: at `p = 10`, `sparsity = 1/4` the generated signal has
3 ones (indices 0, 1, 2 all satisfy `i < 2.5`), not `floor(10 * (1/4)) = 2`
as the claim states. -/
theorem sparse_vector_floor_count_cex :
    (Finset.univ.filter (fun i : Fin 10 => sparse_vector 10 (1/4) i = 1)).card ≠
      Nat.floor ((10 : ℚ) * (1/4)) := by
  have h1 : (Finset.univ.filter (fun i : Fin 10 => sparse_vector 10 (1/4) i = 1)).card = 3 := by
    rw [sparse_vector_card 10 (1/4) (by norm_num)]
    rw [Nat.ceil_eq_iff (by norm_num)]
    norm_num
  have h2 : Nat.floor ((10 : ℚ) * (1/4)) = 2 := by
    rw [Nat.floor_eq_iff (by norm_num)]
    norm_num
  rw [h1, h2]
  decide

/-- C1 (amended): for every `p` and every sparsity fraction `sparsity ≤ 1`, the
generated signal vector has exactly `ceil(p * sparsity)` entries equal to 1
(which agrees with `floor(p * sparsity)` exactly when `p * sparsity` is an
integer), located in contiguous leading positions, all remaining entries equal
to 0, and entry `i` is 1 iff `i < p * sparsity`. -/
theorem sparse_vector_count_ceil (p : ℕ) (sp : ℚ) (hsp : sp ≤ 1) :
    (Finset.univ.filter (fun i : Fin p => sparse_vector p sp i = 1)).card =
      Nat.ceil ((p : ℚ) * sp) ∧
    (∀ i : Fin p, sparse_vector p sp i = 1 ∨ sparse_vector p sp i = 0) ∧
    (∀ i j : Fin p, (i : ℕ) ≤ (j : ℕ) → sparse_vector p sp j = 1 →
      sparse_vector p sp i = 1) ∧
    (∀ i : Fin p, sparse_vector p sp i = 1 ↔ (i : ℚ) < (p : ℚ) * sp) := by
  refine ⟨?_, ?_, ?_, sparse_vector_eq_one_iff p sp⟩
  · exact sparse_vector_card p sp (mul_le_of_le_one_right (Nat.cast_nonneg p) hsp)
  · intro i
    unfold sparse_vector
    by_cases h : (i : ℚ) < (p : ℚ) * sp
    · exact Or.inl (if_pos h)
    · exact Or.inr (if_neg h)
  · intro i j hij hj
    rw [sparse_vector_eq_one_iff] at hj ⊢
    exact lt_of_le_of_lt (show ((i : ℕ) : ℚ) ≤ ((j : ℕ) : ℚ) by exact_mod_cast hij) hj

theorem sparse_vector_count_ceil_witness :
    (1 : ℚ) ≤ 1 ∧
    ((Finset.univ.filter (fun i : Fin 10 => sparse_vector 10 1 i = 1)).card =
      Nat.ceil ((10 : ℚ) * 1) ∧
    (∀ i : Fin 10, sparse_vector 10 1 i = 1 ∨ sparse_vector 10 1 i = 0) ∧
    (∀ i j : Fin 10, (i : ℕ) ≤ (j : ℕ) → sparse_vector 10 1 j = 1 →
      sparse_vector 10 1 i = 1) ∧
    (∀ i : Fin 10, sparse_vector 10 1 i = 1 ↔ (i : ℚ) < (10 : ℚ) * 1)) :=
  ⟨le_refl 1, sparse_vector_count_ceil 10 1 (le_refl 1)⟩

/-- C9: with `p = 50`, `sparsity = 0.3` the generated signal vector has ones
exactly at indices 0 through 14 (15 ones, since `50 * 0.3 = 15`) and zeros at
indices 15 through 49. -/
theorem sparse_vector_scenario_p50 :
    (∀ i : Fin 50, sparse_vector 50 (3/10) i = if (i : ℕ) < 15 then 1 else 0) ∧
    (Finset.univ.filter (fun i : Fin 50 => sparse_vector 50 (3/10) i = 1)).card = 15 := by
  constructor
  · intro i
    have h : ((i : ℚ) < ((50 : ℕ) : ℚ) * (3/10)) ↔ ((i : ℕ) < 15) := by
      rw [show (((50 : ℕ) : ℚ) * (3/10)) = ((15 : ℕ) : ℚ) by push_cast; norm_num]
      exact Nat.cast_lt
    unfold sparse_vector
    rw [if_congr h rfl rfl]
  · rw [sparse_vector_card 50 (3/10) (by norm_num)]
    rw [show (((50 : ℕ) : ℚ) * (3/10)) = ((15 : ℕ) : ℚ) by push_cast; norm_num]
    exact Nat.ceil_natCast 15

/-- C6: the cosine-similarity denominator `norm(recovered) * norm(signal)` is an
unguarded divisor, and it evaluates to 0 whenever the recovered vector `v ⊙ w`
is the zero vector (for example when `v = 0`), so the division-by-zero branch of
the metric is reachable with the actual `p = 50`, `sparsity = 0.3` signal. -/
theorem cosine_error_denominator_zero :
    ∀ w : Fin 50 → ℝ,
      l2norm (hadamard (fun _ => (0 : ℝ)) w) * l2norm (signalR 50 (3/10)) = 0 := by
  intro w
  have h : l2norm (hadamard (fun _ => (0 : ℝ)) w) = 0 := by
    simp [l2norm, hadamard]
  rw [h, zero_mul]

/-- C10: the Hadamard-variant renormalization divides by `sqrt (norm (u ⊙ v))`
with no guard: when `u ⊙ v = 0` (for example `u = 0`) the divisor is 0, and the
renormalized pair still has `norm (u ⊙ v) = 0`, not 1, so the normalization is
well-defined only under the precondition `u ⊙ v ≠ 0`. -/
theorem renormalize_zero_divisor :
    ∀ (m : ℕ) (v : Fin m → ℝ),
      Real.sqrt (l2norm (hadamard (fun _ => (0 : ℝ)) v)) = 0 ∧
      l2norm (hadamard (renormalize (fun _ => (0 : ℝ)) v).1
        (renormalize (fun _ => (0 : ℝ)) v).2) = 0 := by
  intro m v
  constructor
  · have h : l2norm (hadamard (fun _ => (0 : ℝ)) v) = 0 := by
      simp [l2norm, hadamard]
    rw [h, Real.sqrt_zero]
  · simp [renormalize, hadamard, l2norm]

lemma runCount_snd {T : Type} (f : T → T) : ∀ (e : ℕ) (s : T), (runCount f e s).2 = e
  | 0, _ => rfl
  | e + 1, s => by
    simp only [runCount, runCount_snd f e (f s)]

lemma runCount_fst {T : Type} (f : T → T) :
    ∀ (e : ℕ) (s : T), (runCount f e s).1 = runEpochs f e s
  | 0, _ => rfl
  | e + 1, s => by
    simp only [runCount, runEpochs, runCount_fst f e (f s)]

lemma metricTrace_length {T : Type} (f : T → T) (μ : T → ℝ) :
    ∀ (e : ℕ) (s : T), (metricTrace f μ e s).length = e + 1
  | 0, _ => rfl
  | e + 1, s => by
    simp only [metricTrace, List.length_cons, metricTrace_length f μ e (f s)]

lemma l2norm_nonneg {m : ℕ} (x : Fin m → ℝ) : 0 ≤ l2norm x :=
  Real.sqrt_nonneg _

lemma l2norm_smul {m : ℕ} (c : ℝ) (x : Fin m → ℝ) :
    l2norm (fun i => c * x i) = |c| * l2norm x := by
  unfold l2norm
  rw [show (∑ i, (c * x i) ^ 2) = c ^ 2 * ∑ i, x i ^ 2 by
    rw [Finset.mul_sum]; exact Finset.sum_congr rfl fun i _ => by ring]
  rw [Real.sqrt_mul (sq_nonneg c), Real.sqrt_sq_eq_abs]

lemma l2norm_div_const {m : ℕ} (x : Fin m → ℝ) (c : ℝ) (hc : 0 ≤ c) :
    l2norm (fun i => x i / c) = l2norm x / c := by
  unfold l2norm
  rw [show (∑ i, (x i / c) ^ 2) = (∑ i, x i ^ 2) / c ^ 2 by
    rw [Finset.sum_div]; exact Finset.sum_congr rfl fun i _ => div_pow _ _ 2]
  rw [Real.sqrt_div (Finset.sum_nonneg fun i _ => sq_nonneg _), Real.sqrt_sq hc]

lemma renormalize_unit_norm_of_ne_zero {p : ℕ} (u v : Fin p → ℝ)
    (h : l2norm (hadamard u v) ≠ 0) :
    l2norm (hadamard (renormalize u v).1 (renormalize u v).2) = 1 := by
  have hN0 : 0 ≤ l2norm (hadamard u v) := l2norm_nonneg _
  have hfun : hadamard (renormalize u v).1 (renormalize u v).2 =
      fun i => hadamard u v i / l2norm (hadamard u v) := by
    funext i
    simp only [renormalize, hadamard]
    rw [div_mul_div_comm, Real.mul_self_sqrt hN0]
  rw [hfun, l2norm_div_const _ _ hN0, div_self h]

/-- C2: in exact arithmetic, dividing both `u` and `v` by the square root of
`norm (u ⊙ v)` restores `norm (u ⊙ v) = 1`, both at the initial renormalization
and after each gradient-ascent update of the Hadamard-parametrization loop
(whenever the renormalized product is not the zero vector, the condition under
which the division is meaningful). -/
theorem hadamard_renormalize_unit_norm {p : ℕ} (Smat : Fin p → Fin p → ℝ) (σ : ℝ)
    (u v u₂ v₂ : Fin p → ℝ)
    (h₁ : l2norm (hadamard u v) ≠ 0)
    (h₂ : l2norm (hadamard (ascentU Smat σ u₂ v₂) (ascentV Smat σ u₂ v₂)) ≠ 0) :
    l2norm (hadamard (renormalize u v).1 (renormalize u v).2) = 1 ∧
    l2norm (hadamard (hadamardStep Smat σ (u₂, v₂)).1
      (hadamardStep Smat σ (u₂, v₂)).2) = 1 :=
  ⟨renormalize_unit_norm_of_ne_zero u v h₁,
   renormalize_unit_norm_of_ne_zero _ _ h₂⟩

theorem hadamard_renormalize_unit_norm_witness :
    (l2norm (hadamard (fun _ : Fin 1 => (1 : ℝ)) (fun _ : Fin 1 => (1 : ℝ))) ≠ 0) ∧
    (l2norm (hadamard
      (ascentU (fun _ _ => (0 : ℝ)) 0 (fun _ : Fin 1 => (1 : ℝ)) (fun _ => (1 : ℝ)))
      (ascentV (fun _ _ => (0 : ℝ)) 0 (fun _ : Fin 1 => (1 : ℝ)) (fun _ => (1 : ℝ)))) ≠ 0) ∧
    (l2norm (hadamard
      (renormalize (fun _ : Fin 1 => (1 : ℝ)) (fun _ => (1 : ℝ))).1
      (renormalize (fun _ : Fin 1 => (1 : ℝ)) (fun _ => (1 : ℝ))).2) = 1 ∧
    l2norm (hadamard
      (hadamardStep (fun _ _ => (0 : ℝ)) 0 (fun _ : Fin 1 => (1 : ℝ), fun _ => (1 : ℝ))).1
      (hadamardStep (fun _ _ => (0 : ℝ)) 0 (fun _ : Fin 1 => (1 : ℝ), fun _ => (1 : ℝ))).2) = 1) :=
  ⟨by simp [l2norm, hadamard],
   by simp [l2norm, hadamard, ascentU, ascentV],
   hadamard_renormalize_unit_norm (fun _ _ => 0) 0 _ _ _ _
     (by simp [l2norm, hadamard])
     (by simp [l2norm, hadamard, ascentU, ascentV])⟩

lemma quad_form_expand {p : ℕ} (alpha beta : ℝ) (sig x : Fin p → ℝ) :
    (∑ i, ∑ j, x i * covS alpha beta sig i j * x j) =
      alpha * ((∑ i, x i * sig i) * (∑ i, x i * sig i)) + beta * ∑ i, x i * x i := by
  have h1 : ∀ i : Fin p, (∑ j, x i * covS alpha beta sig i j * x j) =
      alpha * ((x i * sig i) * (∑ j, x j * sig j)) + beta * (x i * x i) := by
    intro i
    have e1 : ∀ j, x i * covS alpha beta sig i j * x j =
        alpha * ((x i * sig i) * (x j * sig j)) + (if i = j then beta * (x i * x j) else 0) := by
      intro j
      unfold covS
      by_cases h : i = j
      · rw [if_pos h, if_pos h]; ring
      · rw [if_neg h, if_neg h]; ring
    rw [Finset.sum_congr rfl fun j _ => e1 j, Finset.sum_add_distrib,
      Finset.sum_ite_eq, ← Finset.mul_sum, ← Finset.mul_sum]
    simp
  rw [Finset.sum_congr rfl fun i _ => h1 i, Finset.sum_add_distrib,
    ← Finset.mul_sum, ← Finset.mul_sum, ← Finset.sum_mul]

/-- C4: for every `alpha ≥ 0` and `beta ≥ 0`, the data generator's covariance
matrix `S = alpha * outer(signal, signal) + beta * I` is symmetric and its
quadratic form is nonnegative (positive semi-definite): the form equals
`alpha * (x·signal)² + beta * ‖x‖²`. -/
theorem covS_symm_psd (p : ℕ) (alpha beta : ℝ) (h₁ : 0 ≤ alpha) (h₂ : 0 ≤ beta)
    (sp : ℚ) (i j : Fin p) (x : Fin p → ℝ) :
    covS alpha beta (signalR p sp) i j = covS alpha beta (signalR p sp) j i ∧
    0 ≤ ∑ a, ∑ b, x a * covS alpha beta (signalR p sp) a b * x b := by
  constructor
  · unfold covS
    by_cases h : i = j
    · rw [h]
    · rw [if_neg h, if_neg (Ne.symm h)]; ring
  · rw [quad_form_expand]
    exact add_nonneg (mul_nonneg h₁ (mul_self_nonneg _))
      (mul_nonneg h₂ (Finset.sum_nonneg fun a _ => mul_self_nonneg _))

theorem covS_symm_psd_witness :
    ((0 : ℝ) ≤ 1) ∧ ((0 : ℝ) ≤ 1) ∧
    (covS 1 1 (signalR 2 1) 0 1 = covS 1 1 (signalR 2 1) 1 0 ∧
    0 ≤ ∑ a, ∑ b, (fun _ : Fin 2 => (1 : ℝ)) a * covS 1 1 (signalR 2 1) a b *
      (fun _ : Fin 2 => (1 : ℝ)) b) :=
  ⟨zero_le_one, zero_le_one,
   covS_symm_psd 2 1 1 zero_le_one zero_le_one 1 0 1 (fun _ => 1)⟩

/-- C5: for nonzero recovered and signal vectors, the sine-error
`sqrt (1 - cos²)` lies in the closed interval `[0, 1]`. -/
theorem sine_error_bounds {m : ℕ} (r s : Fin m → ℝ) (hr : r ≠ 0) (hs : s ≠ 0) :
    0 ≤ sine_error r s ∧ sine_error r s ≤ 1 := by
  constructor
  · exact Real.sqrt_nonneg _
  · unfold sine_error
    exact Real.sqrt_le_one.mpr (by linarith [sq_nonneg (cosine_error r s)])

theorem sine_error_bounds_witness :
    ((fun _ : Fin 1 => (1 : ℝ)) ≠ 0) ∧ ((fun _ : Fin 1 => (2 : ℝ)) ≠ 0) ∧
    (0 ≤ sine_error (fun _ : Fin 1 => (1 : ℝ)) (fun _ => (2 : ℝ)) ∧
      sine_error (fun _ : Fin 1 => (1 : ℝ)) (fun _ => (2 : ℝ)) ≤ 1) :=
  ⟨fun h => one_ne_zero (congrFun h 0),
   fun h => two_ne_zero (congrFun h 0),
   sine_error_bounds _ _ (fun h => one_ne_zero (congrFun h 0))
     (fun h => two_ne_zero (congrFun h 0))⟩

/-- C7: the sine-error is invariant to the sign and scale of the recovered
vector: rescaling the recovered vector by any nonzero scalar leaves the
sine-error unchanged. -/
theorem sine_error_scale_invariant {m : ℕ} (r s : Fin m → ℝ) (c : ℝ)
    (hc : c ≠ 0) (hr : r ≠ 0) (hs : s ≠ 0) :
    sine_error (fun i => c * r i) s = sine_error r s := by
  have hnum : (∑ i, (c * r i) * s i) = c * ∑ i, r i * s i := by
    rw [Finset.mul_sum]; exact Finset.sum_congr rfl fun i _ => by ring
  have key : cosine_error (fun i => c * r i) s ^ 2 = cosine_error r s ^ 2 := by
    unfold cosine_error
    rw [hnum, l2norm_smul, div_pow, div_pow, mul_pow c, mul_pow, mul_pow, sq_abs,
      mul_assoc (c ^ 2), mul_pow]
    exact mul_div_mul_left _ _ (pow_ne_zero 2 hc)
  unfold sine_error
  rw [key]

theorem sine_error_scale_invariant_witness :
    ((1 : ℝ) ≠ 0) ∧ ((fun _ : Fin 1 => (3 : ℝ)) ≠ 0) ∧ ((fun _ : Fin 1 => (1 : ℝ)) ≠ 0) ∧
    sine_error (fun i : Fin 1 => 1 * (fun _ => (3 : ℝ)) i) (fun _ => (1 : ℝ)) =
      sine_error (fun _ : Fin 1 => (3 : ℝ)) (fun _ => (1 : ℝ)) :=
  ⟨one_ne_zero,
   fun h => three_ne_zero (congrFun h 0),
   fun h => one_ne_zero (congrFun h 0),
   sine_error_scale_invariant _ _ 1 one_ne_zero
     (fun h => three_ne_zero (congrFun h 0))
     (fun h => one_ne_zero (congrFun h 0))⟩

/-- C8: every training loop — the generic `for i in range(epochs)` loop with any
step function and any logged metric, and in particular the four gradient-descent
variants and the power-iteration variant — executes exactly its fixed epoch count
of iterations, ends in the state reached by iterating the step that many times,
and records exactly `epochs + 1` metric values; no state or loss value can stop
it early. -/
theorem training_loops_fixed_epochs {n p : ℕ} (X : Fin n → Fin p → ℝ)
    (Smat : Fin p → Fin p → ℝ) (σ : ℝ) (e : ℕ)
    (s₁ : GDState n p) (s₂ : GDState p p) (s₃ : GDState n p) (s₄ : GDState p p)
    (uv : (Fin p → ℝ) × (Fin p → ℝ)) :
    (∀ (T : Type) (stepFn : T → T) (s : T) (μ : T → ℝ),
      (runCount stepFn e s).2 = e ∧
      (runCount stepFn e s).1 = runEpochs stepFn e s ∧
      (metricTrace stepFn μ e s).length = e + 1) ∧
    (runCount (gdStep1 X σ) e s₁).2 = e ∧
    (runCount (gdStep2 X σ) e s₂).2 = e ∧
    (runCount (gdStep3 X σ) e s₃).2 = e ∧
    (runCount (gdStep4 X σ) e s₄).2 = e ∧
    (runCount (hadamardStep Smat σ) e uv).2 = e :=
  ⟨fun T stepFn s μ =>
    ⟨runCount_snd stepFn e s, runCount_fst stepFn e s, metricTrace_length stepFn μ e s⟩,
   runCount_snd _ e s₁, runCount_snd _ e s₂, runCount_snd _ e s₃, runCount_snd _ e s₄,
   runCount_snd _ e uv⟩

lemma hasDerivAt_updateAt {m : ℕ} (u : Fin m → ℝ) (k i : Fin m) (t₀ : ℝ) :
    HasDerivAt (fun t => Function.update u k t i) (if i = k then 1 else 0) t₀ := by
  rcases eq_or_ne i k with h | h
  · subst h
    simp only [Function.update_same, if_pos rfl]
    exact hasDerivAt_id t₀
  · simp only [Function.update_noteq h, if_neg h]
    exact hasDerivAt_const t₀ _

lemma hasDerivAt_sum_sq {ι : Type} [Fintype ι] (g : ι → ℝ → ℝ) (d : ι → ℝ) (t₀ : ℝ)
    (h : ∀ i, HasDerivAt (g i) (d i) t₀) :
    HasDerivAt (fun t => ∑ i, (g i t) ^ 2) (∑ i, 2 * g i t₀ * d i) t₀ := by
  have H := HasDerivAt.sum (fun i (_ : i ∈ Finset.univ) => ((h i).pow 2))
  convert H using 1
  exact Finset.sum_congr rfl fun i _ => by push_cast; ring

lemma hasDerivAt_sum2_sq {ι κ : Type} [Fintype ι] [Fintype κ] (g : ι → κ → ℝ → ℝ)
    (d : ι → κ → ℝ) (t₀ : ℝ) (h : ∀ i j, HasDerivAt (g i j) (d i j) t₀) :
    HasDerivAt (fun t => ∑ i, ∑ j, (g i j t) ^ 2) (∑ i, ∑ j, 2 * g i j t₀ * d i j) t₀ :=
  HasDerivAt.sum (fun i (_ : i ∈ Finset.univ) => hasDerivAt_sum_sq (g i) (d i) t₀ (h i))

lemma hasDerivAt_obj1_u {n p : ℕ} (X : Fin n → Fin p → ℝ) (u : Fin n → ℝ)
    (v w : Fin p → ℝ) (k : Fin n) :
    HasDerivAt (fun t => objective_function_1 X (Function.update u k t) v w)
      (grad1_u X u v w k) (u k) := by
  have h : ∀ (i : Fin n) (j : Fin p),
      HasDerivAt (fun t => X i j - Function.update u k t i * (v j * w j))
        (-((if i = k then (1 : ℝ) else 0) * (v j * w j))) (u k) :=
    fun i j => ((hasDerivAt_updateAt u k i (u k)).mul_const (v j * w j)).const_sub (X i j)
  have H := hasDerivAt_sum2_sq _ _ _ h
  have key : (∑ i, ∑ j, 2 * (X i j - Function.update u k (u k) i * (v j * w j)) *
      (-((if i = k then (1 : ℝ) else 0) * (v j * w j)))) = grad1_u X u v w k := by
    rw [Function.update_eq_self]
    rw [Finset.sum_eq_single k]
    · exact Finset.sum_congr rfl fun j _ => by rw [if_pos rfl]; ring
    · intro b _ hb
      exact Finset.sum_eq_zero fun j _ => by rw [if_neg hb]; ring
    · intro hk
      exact absurd (Finset.mem_univ k) hk
  exact key ▸ H

lemma hasDerivAt_obj1_v {n p : ℕ} (X : Fin n → Fin p → ℝ) (u : Fin n → ℝ)
    (v w : Fin p → ℝ) (k : Fin p) :
    HasDerivAt (fun t => objective_function_1 X u (Function.update v k t) w)
      (grad1_v X u v w k) (v k) := by
  have h : ∀ (i : Fin n) (j : Fin p),
      HasDerivAt (fun t => X i j - u i * (Function.update v k t j * w j))
        (-(u i * ((if j = k then (1 : ℝ) else 0) * w j))) (v k) :=
    fun i j =>
      (((hasDerivAt_updateAt v k j (v k)).mul_const (w j)).const_mul (u i)).const_sub (X i j)
  have H := hasDerivAt_sum2_sq _ _ _ h
  have key : (∑ i, ∑ j, 2 * (X i j - u i * (Function.update v k (v k) j * w j)) *
      (-(u i * ((if j = k then (1 : ℝ) else 0) * w j)))) = grad1_v X u v w k := by
    rw [Function.update_eq_self]
    refine Finset.sum_congr rfl fun i _ => ?_
    rw [Finset.sum_eq_single k]
    · rw [if_pos rfl]; ring
    · intro b _ hb
      rw [if_neg hb]; ring
    · intro hk
      exact absurd (Finset.mem_univ k) hk
  exact key ▸ H

lemma hasDerivAt_obj1_w {n p : ℕ} (X : Fin n → Fin p → ℝ) (u : Fin n → ℝ)
    (v w : Fin p → ℝ) (k : Fin p) :
    HasDerivAt (fun t => objective_function_1 X u v (Function.update w k t))
      (grad1_w X u v w k) (w k) := by
  have h : ∀ (i : Fin n) (j : Fin p),
      HasDerivAt (fun t => X i j - u i * (v j * Function.update w k t j))
        (-(u i * (v j * (if j = k then (1 : ℝ) else 0)))) (w k) :=
    fun i j =>
      (((hasDerivAt_updateAt w k j (w k)).const_mul (v j)).const_mul (u i)).const_sub (X i j)
  have H := hasDerivAt_sum2_sq _ _ _ h
  have key : (∑ i, ∑ j, 2 * (X i j - u i * (v j * Function.update w k (w k) j)) *
      (-(u i * (v j * (if j = k then (1 : ℝ) else 0))))) = grad1_w X u v w k := by
    rw [Function.update_eq_self]
    refine Finset.sum_congr rfl fun i _ => ?_
    rw [Finset.sum_eq_single k]
    · rw [if_pos rfl]; ring
    · intro b _ hb
      rw [if_neg hb]; ring
    · intro hk
      exact absurd (Finset.mem_univ k) hk
  exact key ▸ H

lemma hasDerivAt_matvecAt {n p : ℕ} (X : Fin n → Fin p → ℝ) (u : Fin p → ℝ)
    (k : Fin p) (i : Fin n) (t₀ : ℝ) :
    HasDerivAt (fun t => ∑ m, X i m * Function.update u k t m) (X i k) t₀ := by
  have H := HasDerivAt.sum
    (fun m (_ : m ∈ Finset.univ) => (hasDerivAt_updateAt u k m t₀).const_mul (X i m))
  have key : (∑ m, X i m * (if m = k then (1 : ℝ) else 0)) = X i k := by
    rw [Finset.sum_eq_single k]
    · rw [if_pos rfl, mul_one]
    · intro b _ hb
      rw [if_neg hb, mul_zero]
    · intro hk
      exact absurd (Finset.mem_univ k) hk
  exact key ▸ H

lemma hasDerivAt_obj2_u {n p : ℕ} (X : Fin n → Fin p → ℝ)
    (u v w : Fin p → ℝ) (k : Fin p) :
    HasDerivAt (fun t => objective_function_2 X (Function.update u k t) v w)
      (grad2_u X u v w k) (u k) := by
  have h : ∀ (i : Fin n) (j : Fin p),
      HasDerivAt (fun t => X i j - (∑ m, X i m * Function.update u k t m) * (v j * w j))
        (-(X i k * (v j * w j))) (u k) :=
    fun i j => ((hasDerivAt_matvecAt X u k i (u k)).mul_const (v j * w j)).const_sub (X i j)
  have H := hasDerivAt_sum2_sq _ _ _ h
  have key : (∑ i, ∑ j,
      2 * (X i j - (∑ m, X i m * Function.update u k (u k) m) * (v j * w j)) *
        (-(X i k * (v j * w j)))) = grad2_u X u v w k := by
    rw [Function.update_eq_self]
    rfl
  exact key ▸ H

lemma hasDerivAt_obj2_v {n p : ℕ} (X : Fin n → Fin p → ℝ)
    (u v w : Fin p → ℝ) (k : Fin p) :
    HasDerivAt (fun t => objective_function_2 X u (Function.update v k t) w)
      (grad2_v X u v w k) (v k) := by
  have h : ∀ (i : Fin n) (j : Fin p),
      HasDerivAt (fun t => X i j - (∑ m, X i m * u m) * (Function.update v k t j * w j))
        (-((∑ m, X i m * u m) * ((if j = k then (1 : ℝ) else 0) * w j))) (v k) :=
    fun i j =>
      (((hasDerivAt_updateAt v k j (v k)).mul_const (w j)).const_mul
        (∑ m, X i m * u m)).const_sub (X i j)
  have H := hasDerivAt_sum2_sq _ _ _ h
  have key : (∑ i, ∑ j,
      2 * (X i j - (∑ m, X i m * u m) * (Function.update v k (v k) j * w j)) *
        (-((∑ m, X i m * u m) * ((if j = k then (1 : ℝ) else 0) * w j)))) =
      grad2_v X u v w k := by
    rw [Function.update_eq_self]
    refine Finset.sum_congr rfl fun i _ => ?_
    rw [Finset.sum_eq_single k]
    · rw [if_pos rfl]; ring
    · intro b _ hb
      rw [if_neg hb]; ring
    · intro hk
      exact absurd (Finset.mem_univ k) hk
  exact key ▸ H

lemma hasDerivAt_obj2_w {n p : ℕ} (X : Fin n → Fin p → ℝ)
    (u v w : Fin p → ℝ) (k : Fin p) :
    HasDerivAt (fun t => objective_function_2 X u v (Function.update w k t))
      (grad2_w X u v w k) (w k) := by
  have h : ∀ (i : Fin n) (j : Fin p),
      HasDerivAt (fun t => X i j - (∑ m, X i m * u m) * (v j * Function.update w k t j))
        (-((∑ m, X i m * u m) * (v j * (if j = k then (1 : ℝ) else 0)))) (w k) :=
    fun i j =>
      (((hasDerivAt_updateAt w k j (w k)).const_mul (v j)).const_mul
        (∑ m, X i m * u m)).const_sub (X i j)
  have H := hasDerivAt_sum2_sq _ _ _ h
  have key : (∑ i, ∑ j,
      2 * (X i j - (∑ m, X i m * u m) * (v j * Function.update w k (w k) j)) *
        (-((∑ m, X i m * u m) * (v j * (if j = k then (1 : ℝ) else 0))))) =
      grad2_w X u v w k := by
    rw [Function.update_eq_self]
    refine Finset.sum_congr rfl fun i _ => ?_
    rw [Finset.sum_eq_single k]
    · rw [if_pos rfl]; ring
    · intro b _ hb
      rw [if_neg hb]; ring
    · intro hk
      exact absurd (Finset.mem_univ k) hk
  exact key ▸ H

lemma hasDerivAt_obj3_u {n p : ℕ} (X : Fin n → Fin p → ℝ) (u : Fin n → ℝ)
    (v w : Fin p → ℝ) (k : Fin n) :
    HasDerivAt (fun t => objective_function_3 X (Function.update u k t) v w)
      (grad3_u X u v w k) (u k) := by
  have h : ∀ (i : Fin n) (j : Fin p),
      HasDerivAt (fun t => X i j - Function.update u k t i * (v j * v j - w j * w j))
        (-((if i = k then (1 : ℝ) else 0) * (v j * v j - w j * w j))) (u k) :=
    fun i j =>
      ((hasDerivAt_updateAt u k i (u k)).mul_const (v j * v j - w j * w j)).const_sub (X i j)
  have H := hasDerivAt_sum2_sq _ _ _ h
  have key : (∑ i, ∑ j,
      2 * (X i j - Function.update u k (u k) i * (v j * v j - w j * w j)) *
        (-((if i = k then (1 : ℝ) else 0) * (v j * v j - w j * w j)))) =
      grad3_u X u v w k := by
    rw [Function.update_eq_self]
    rw [Finset.sum_eq_single k]
    · exact Finset.sum_congr rfl fun j _ => by rw [if_pos rfl]; ring
    · intro b _ hb
      exact Finset.sum_eq_zero fun j _ => by rw [if_neg hb]; ring
    · intro hk
      exact absurd (Finset.mem_univ k) hk
  exact key ▸ H

lemma hasDerivAt_obj3_v {n p : ℕ} (X : Fin n → Fin p → ℝ) (u : Fin n → ℝ)
    (v w : Fin p → ℝ) (k : Fin p) :
    HasDerivAt (fun t => objective_function_3 X u (Function.update v k t) w)
      (grad3_v X u v w k) (v k) := by
  have h : ∀ (i : Fin n) (j : Fin p),
      HasDerivAt
        (fun t => X i j - u i *
          (Function.update v k t j * Function.update v k t j - w j * w j))
        (-(u i * ((if j = k then (1 : ℝ) else 0) * v j +
          v j * (if j = k then (1 : ℝ) else 0)))) (v k) := by
    intro i j
    have h1 := (hasDerivAt_updateAt v k j (v k)).mul (hasDerivAt_updateAt v k j (v k))
    rw [Function.update_eq_self] at h1
    exact ((h1.sub_const (w j * w j)).const_mul (u i)).const_sub (X i j)
  have H := hasDerivAt_sum2_sq _ _ _ h
  have key : (∑ i, ∑ j,
      2 * (X i j - u i *
        (Function.update v k (v k) j * Function.update v k (v k) j - w j * w j)) *
        (-(u i * ((if j = k then (1 : ℝ) else 0) * v j +
          v j * (if j = k then (1 : ℝ) else 0))))) = grad3_v X u v w k := by
    rw [Function.update_eq_self]
    refine Finset.sum_congr rfl fun i _ => ?_
    rw [Finset.sum_eq_single k]
    · rw [if_pos rfl]; ring
    · intro b _ hb
      rw [if_neg hb]; ring
    · intro hk
      exact absurd (Finset.mem_univ k) hk
  exact key ▸ H

lemma hasDerivAt_obj3_w {n p : ℕ} (X : Fin n → Fin p → ℝ) (u : Fin n → ℝ)
    (v w : Fin p → ℝ) (k : Fin p) :
    HasDerivAt (fun t => objective_function_3 X u v (Function.update w k t))
      (grad3_w X u v w k) (w k) := by
  have h : ∀ (i : Fin n) (j : Fin p),
      HasDerivAt
        (fun t => X i j - u i *
          (v j * v j - Function.update w k t j * Function.update w k t j))
        (-(u i * (-((if j = k then (1 : ℝ) else 0) * w j +
          w j * (if j = k then (1 : ℝ) else 0))))) (w k) := by
    intro i j
    have h1 := (hasDerivAt_updateAt w k j (w k)).mul (hasDerivAt_updateAt w k j (w k))
    rw [Function.update_eq_self] at h1
    exact ((h1.const_sub (v j * v j)).const_mul (u i)).const_sub (X i j)
  have H := hasDerivAt_sum2_sq _ _ _ h
  have key : (∑ i, ∑ j,
      2 * (X i j - u i *
        (v j * v j - Function.update w k (w k) j * Function.update w k (w k) j)) *
        (-(u i * (-((if j = k then (1 : ℝ) else 0) * w j +
          w j * (if j = k then (1 : ℝ) else 0)))))) = grad3_w X u v w k := by
    rw [Function.update_eq_self]
    refine Finset.sum_congr rfl fun i _ => ?_
    rw [Finset.sum_eq_single k]
    · rw [if_pos rfl]; ring
    · intro b _ hb
      rw [if_neg hb]; ring
    · intro hk
      exact absurd (Finset.mem_univ k) hk
  exact key ▸ H

lemma hasDerivAt_obj4_u {n p : ℕ} (X : Fin n → Fin p → ℝ)
    (u v w : Fin p → ℝ) (k : Fin p) :
    HasDerivAt (fun t => objective_function_4 X (Function.update u k t) v w)
      (grad4_u X u v w k) (u k) := by
  have h : ∀ (i : Fin n) (j : Fin p),
      HasDerivAt
        (fun t => X i j -
          (∑ m, X i m * Function.update u k t m) * (v j * v j - w j * w j))
        (-(X i k * (v j * v j - w j * w j))) (u k) :=
    fun i j =>
      ((hasDerivAt_matvecAt X u k i (u k)).mul_const (v j * v j - w j * w j)).const_sub (X i j)
  have H := hasDerivAt_sum2_sq _ _ _ h
  have key : (∑ i, ∑ j,
      2 * (X i j - (∑ m, X i m * Function.update u k (u k) m) * (v j * v j - w j * w j)) *
        (-(X i k * (v j * v j - w j * w j)))) = grad4_u X u v w k := by
    rw [Function.update_eq_self]
    rfl
  exact key ▸ H

lemma hasDerivAt_obj4_v {n p : ℕ} (X : Fin n → Fin p → ℝ)
    (u v w : Fin p → ℝ) (k : Fin p) :
    HasDerivAt (fun t => objective_function_4 X u (Function.update v k t) w)
      (grad4_v X u v w k) (v k) := by
  have h : ∀ (i : Fin n) (j : Fin p),
      HasDerivAt
        (fun t => X i j - (∑ m, X i m * u m) *
          (Function.update v k t j * Function.update v k t j - w j * w j))
        (-((∑ m, X i m * u m) * ((if j = k then (1 : ℝ) else 0) * v j +
          v j * (if j = k then (1 : ℝ) else 0)))) (v k) := by
    intro i j
    have h1 := (hasDerivAt_updateAt v k j (v k)).mul (hasDerivAt_updateAt v k j (v k))
    rw [Function.update_eq_self] at h1
    exact ((h1.sub_const (w j * w j)).const_mul (∑ m, X i m * u m)).const_sub (X i j)
  have H := hasDerivAt_sum2_sq _ _ _ h
  have key : (∑ i, ∑ j,
      2 * (X i j - (∑ m, X i m * u m) *
        (Function.update v k (v k) j * Function.update v k (v k) j - w j * w j)) *
        (-((∑ m, X i m * u m) * ((if j = k then (1 : ℝ) else 0) * v j +
          v j * (if j = k then (1 : ℝ) else 0))))) = grad4_v X u v w k := by
    rw [Function.update_eq_self]
    refine Finset.sum_congr rfl fun i _ => ?_
    rw [Finset.sum_eq_single k]
    · rw [if_pos rfl]; ring
    · intro b _ hb
      rw [if_neg hb]; ring
    · intro hk
      exact absurd (Finset.mem_univ k) hk
  exact key ▸ H

lemma hasDerivAt_obj4_w {n p : ℕ} (X : Fin n → Fin p → ℝ)
    (u v w : Fin p → ℝ) (k : Fin p) :
    HasDerivAt (fun t => objective_function_4 X u v (Function.update w k t))
      (grad4_w X u v w k) (w k) := by
  have h : ∀ (i : Fin n) (j : Fin p),
      HasDerivAt
        (fun t => X i j - (∑ m, X i m * u m) *
          (v j * v j - Function.update w k t j * Function.update w k t j))
        (-((∑ m, X i m * u m) * (-((if j = k then (1 : ℝ) else 0) * w j +
          w j * (if j = k then (1 : ℝ) else 0))))) (w k) := by
    intro i j
    have h1 := (hasDerivAt_updateAt w k j (w k)).mul (hasDerivAt_updateAt w k j (w k))
    rw [Function.update_eq_self] at h1
    exact ((h1.const_sub (v j * v j)).const_mul (∑ m, X i m * u m)).const_sub (X i j)
  have H := hasDerivAt_sum2_sq _ _ _ h
  have key : (∑ i, ∑ j,
      2 * (X i j - (∑ m, X i m * u m) *
        (v j * v j - Function.update w k (w k) j * Function.update w k (w k) j)) *
        (-((∑ m, X i m * u m) * (-((if j = k then (1 : ℝ) else 0) * w j +
          w j * (if j = k then (1 : ℝ) else 0)))))) = grad4_w X u v w k := by
    rw [Function.update_eq_self]
    refine Finset.sum_congr rfl fun i _ => ?_
    rw [Finset.sum_eq_single k]
    · rw [if_pos rfl]; ring
    · intro b _ hb
      rw [if_neg hb]; ring
    · intro hk
      exact absurd (Finset.mem_univ k) hk
  exact key ▸ H

lemma gdStepSpec1_of_zeroGrads {n p : ℕ} (X : Fin n → Fin p → ℝ) (σ : ℝ)
    (s : GDState n p) (h : zeroGrads s) : gdStepSpec1 X σ s := by
  obtain ⟨hgu, hgv, hgw⟩ := h
  refine ⟨?_, ?_, ?_, ⟨rfl, rfl, rfl⟩,
    hasDerivAt_obj1_u X s.u s.v s.w, hasDerivAt_obj1_v X s.u s.v s.w,
    hasDerivAt_obj1_w X s.u s.v s.w⟩
  · funext k
    simp [gdStep1, hgu]
  · funext k
    simp [gdStep1, hgv]
  · funext k
    simp [gdStep1, hgw]

lemma gdStepSpec2_of_zeroGrads {n p : ℕ} (X : Fin n → Fin p → ℝ) (σ : ℝ)
    (s : GDState p p) (h : zeroGrads s) : gdStepSpec2 X σ s := by
  obtain ⟨hgu, hgv, hgw⟩ := h
  refine ⟨?_, ?_, ?_, ⟨rfl, rfl, rfl⟩,
    hasDerivAt_obj2_u X s.u s.v s.w, hasDerivAt_obj2_v X s.u s.v s.w,
    hasDerivAt_obj2_w X s.u s.v s.w⟩
  · funext k
    simp [gdStep2, hgu]
  · funext k
    simp [gdStep2, hgv]
  · funext k
    simp [gdStep2, hgw]

lemma gdStepSpec3_of_zeroGrads {n p : ℕ} (X : Fin n → Fin p → ℝ) (σ : ℝ)
    (s : GDState n p) (h : zeroGrads s) : gdStepSpec3 X σ s := by
  obtain ⟨hgu, hgv, hgw⟩ := h
  refine ⟨?_, ?_, ?_, ⟨rfl, rfl, rfl⟩,
    hasDerivAt_obj3_u X s.u s.v s.w, hasDerivAt_obj3_v X s.u s.v s.w,
    hasDerivAt_obj3_w X s.u s.v s.w⟩
  · funext k
    simp [gdStep3, hgu]
  · funext k
    simp [gdStep3, hgv]
  · funext k
    simp [gdStep3, hgw]

lemma gdStepSpec4_of_zeroGrads {n p : ℕ} (X : Fin n → Fin p → ℝ) (σ : ℝ)
    (s : GDState p p) (h : zeroGrads s) : gdStepSpec4 X σ s := by
  obtain ⟨hgu, hgv, hgw⟩ := h
  refine ⟨?_, ?_, ?_, ⟨rfl, rfl, rfl⟩,
    hasDerivAt_obj4_u X s.u s.v s.w, hasDerivAt_obj4_v X s.u s.v s.w,
    hasDerivAt_obj4_w X s.u s.v s.w⟩
  · funext k
    simp [gdStep4, hgu]
  · funext k
    simp [gdStep4, hgv]
  · funext k
    simp [gdStep4, hgw]

/-- C3: for each of the four objective variants, every optimization iteration
performs one fixed-step gradient-descent update. Starting from cleared gradient
accumulators (the loop invariant), `backward()` plus `param -= grad * step_size`
plus `grad.zero_()` leaves each parameter at `param - grad * step_size` where
the `grad` functions are the exact partial derivatives of the corresponding
squared-Frobenius loss at the current parameters, and the accumulators end at
zero. -/
theorem gd_step_exact_gradient {n p : ℕ} (X : Fin n → Fin p → ℝ) (σ : ℝ)
    (s₁ : GDState n p) (s₂ : GDState p p) (s₃ : GDState n p) (s₄ : GDState p p)
    (h₁ : zeroGrads s₁) (h₂ : zeroGrads s₂) (h₃ : zeroGrads s₃) (h₄ : zeroGrads s₄) :
    gdStepSpec1 X σ s₁ ∧ gdStepSpec2 X σ s₂ ∧ gdStepSpec3 X σ s₃ ∧ gdStepSpec4 X σ s₄ :=
  ⟨gdStepSpec1_of_zeroGrads X σ s₁ h₁, gdStepSpec2_of_zeroGrads X σ s₂ h₂,
   gdStepSpec3_of_zeroGrads X σ s₃ h₃, gdStepSpec4_of_zeroGrads X σ s₄ h₄⟩

theorem gd_step_exact_gradient_witness :
    zeroGrads demoState ∧
    (gdStepSpec1 demoX 1 demoState ∧ gdStepSpec2 demoX 1 demoState ∧
     gdStepSpec3 demoX 1 demoState ∧ gdStepSpec4 demoX 1 demoState) :=
  ⟨⟨rfl, rfl, rfl⟩,
   gd_step_exact_gradient demoX 1 demoState demoState demoState demoState
     ⟨rfl, rfl, rfl⟩ ⟨rfl, rfl, rfl⟩ ⟨rfl, rfl, rfl⟩ ⟨rfl, rfl, rfl⟩⟩

end SparsePCA
